import Mathlib

/-!
A shallow embedding of the core of the dabutvin/crawler repository
(a ClearlyDefined crawler excerpt) and theorems settling the frozen
claims of its specification.

Embedded source files:
* src/lib/baseHandler.js (version selection, aggregation, attachments,
  tool link composition),
* src/providers/process/mavenExtract.js (manifest resolution),
* the DockerExtract processor (embedded-component discovery).

Modelling conventions: JavaScript strings are Lean Strings with the
operations defined on the underlying character lists; JS objects are
association lists; JS numbers are Int (the claimed arithmetic is
integral, with explicit Infinity and NaN values where reachable);
fallible JS code returns Option or Except, where the error value models
a thrown exception.
-/

namespace Crawler

/-! ## JavaScript string primitives -/

/-- JS String.prototype.split with a non-empty string separator, on
character lists: cut at every leftmost non-overlapping occurrence of
sep.  (The crawler only splits on the non-empty separators "\n", "."
and "___"; for an empty separator this model returns the whole string
as a single part.)  The recursion is driven by a character-count fuel
so that it stays structural; the fuel never runs out because each step
consumes at least one character. -/
def splitSeqF (sep : List Char) : Nat → List Char → List (List Char)
  | _, [] => [[]]
  | 0, _ :: _ => [[]]
  | fuel + 1, c :: rest =>
    if sep.isEmpty = false ∧ sep.isPrefixOf (c :: rest) then
      [] :: splitSeqF sep fuel (rest.drop (sep.length - 1))
    else
      match splitSeqF sep fuel rest with
      | [] => [[c]]
      | p :: ps => (c :: p) :: ps

def splitSeq (sep s : List Char) : List (List Char) :=
  splitSeqF sep s.length s

/-- JS String.prototype.split lifted to String. -/
def jsSplit (s sep : String) : List String :=
  (splitSeq sep.data s.data).map String.mk

/-- Join a list of character lists with a separator; the inverse image
used to build the newline-delimited tool listings in the theorems. -/
def joinSep (sep : List Char) : List (List Char) → List Char
  | [] => []
  | [p] => p
  | p :: q :: ps => p ++ sep ++ joinSep sep (q :: ps)

/-- joinSep lifted to String. -/
def joinStr (sep : String) (parts : List String) : String :=
  String.mk (joinSep sep.data (parts.map String.data))

/-- JS String.prototype.replace with a string pattern: replace the first
occurrence of pat with the empty string (the only replacement the
crawler performs). -/
def replFirst (pat : List Char) : List Char → List Char
  | [] => []
  | c :: rest =>
    if pat.isPrefixOf (c :: rest) then (c :: rest).drop pat.length
    else c :: replFirst pat rest

/-- replFirst lifted to String: s.replace(pat, "") in JS. -/
def jsReplaceFirst (s pat : String) : String :=
  String.mk (replFirst pat.data s.data)

/-- Trim leading and trailing whitespace, as JS String.prototype.trim
(modelled for ASCII whitespace; JS also strips \u00A0 and the other
Unicode space characters, which no settled statement exercises). -/
def trimChars (s : List Char) : List Char :=
  ((s.dropWhile Char.isWhitespace).reverse.dropWhile Char.isWhitespace).reverse

/-- The position of the first occurrence of sep in s (used to phrase
first-occurrence hypotheses about the delimiter in a decidable way). -/
def firstOcc (sep : List Char) : List Char → Option Nat
  | [] => if sep.isEmpty then some 0 else none
  | c :: rest =>
    if sep.isPrefixOf (c :: rest) then some 0
    else (firstOcc sep rest).map (· + 1)

/-! ## JavaScript numbers: a partial model

baseHandler._aggregateVersions coerces strings with the unary plus and
adds the results as IEEE-754 doubles.  Full fidelity would require the
complete ECMAScript StringNumericLiteral grammar (including exponent,
fraction, binary and octal forms such as "1e1" or "0b11"), double
rounding (exact only up to 2^53) and the shortest-round-trip
Number-to-String rendering; that floating-point semantics is not
modelled here.  The definitions below cover only the fragment on which
the settled statements evaluate them: whitespace trimming, the empty
string, signed decimal digit runs, signed Infinity and unsigned hex
literals, with exact integer arithmetic.  Outside this fragment the
model diverges from the program (it maps the remaining numeric forms
to NaN and never rounds), so no theorem may quantify over inputs that
leave the fragment. -/

inductive JsNum where
  | int : Int → JsNum
  | posInf
  | negInf
deriving DecidableEq

/-- Decimal digit run to Nat. -/
def digitsToNat (ds : List Char) : Nat :=
  ds.foldl (fun a c => a * 10 + (c.toNat - 48)) 0

def isHexDig (c : Char) : Bool :=
  c.isDigit || ('a' ≤ c && c ≤ 'f') || ('A' ≤ c && c ≤ 'F')

def hexDigitVal (c : Char) : Nat :=
  if c.isDigit then c.toNat - 48
  else if 'a' ≤ c && c ≤ 'f' then c.toNat - 87
  else c.toNat - 55

def hexToNat (ds : List Char) : Nat :=
  ds.foldl (fun a c => a * 16 + hexDigitVal c) 0

/-- The JS ToNumber coercion (unary plus) on strings, restricted to
the integral fragment described above; none models NaN.  Numeric forms
outside the fragment (exponent, fraction, binary, octal) are mapped to
none even though JS coerces them, so this definition underapproximates
the set of accepted strings. -/
def jsToNumber (s : String) : Option JsNum :=
  let t := trimChars s.data
  if t = [] then some (.int 0)
  else if t.take 2 = ['0', 'x'] ∨ t.take 2 = ['0', 'X'] then
    let h := t.drop 2
    if h ≠ [] ∧ h.all isHexDig then some (.int (hexToNat h)) else none
  else
    let su : Int × List Char :=
      match t with
      | '+' :: u => (1, u)
      | '-' :: u => (-1, u)
      | u => (1, u)
    if su.2 = ['I', 'n', 'f', 'i', 'n', 'i', 't', 'y'] then
      some (if su.1 = 1 then .posInf else .negInf)
    else if su.2 ≠ [] ∧ su.2.all Char.isDigit then
      some (.int (su.1 * digitsToNat su.2))
    else none

/-- JS rendering of an array element by Array.prototype.join; NaN
renders as "NaN". -/
def renderJsNum : Option JsNum → String
  | none => "NaN"
  | some (.int n) => toString n
  | some .posInf => "Infinity"
  | some .negInf => "-Infinity"

/-- JS addition on possibly-NaN numbers, with exact integer addition
in place of IEEE-double addition: faithful only while every operand
and sum stays within the exactly-representable range (magnitude at
most 2^53). -/
def jsAdd : Option JsNum → Option JsNum → Option JsNum
  | none, _ => none
  | _, none => none
  | some (.int a), some (.int b) => some (.int (a + b))
  | some .posInf, some (.int _) => some .posInf
  | some (.int _), some .posInf => some .posInf
  | some .posInf, some .posInf => some .posInf
  | some .negInf, some (.int _) => some .negInf
  | some (.int _), some .negInf => some .negInf
  | some .negInf, some .negInf => some .negInf
  | some .posInf, some .negInf => none
  | some .negInf, some .posInf => none

/-! ## The semantic-versioning model (the semver npm library)

baseHandler uses semver.gt and semver.prerelease.  The library parses a
version with the strict grammar (optional leading v, three dot-separated
numeric components without leading zeros and not exceeding 2^53 - 1, an
optional dash-prefixed dot-separated prerelease list, an optional
plus-prefixed build list), and orders versions by the major/minor/patch
triple and then by the prerelease list, where a release (empty
prerelease) is above every prerelease, numeric identifiers are below
alphanumeric ones, numeric identifiers compare numerically, alphanumeric
ones compare as strings, and a prerelease list that is a proper prefix
of another is below it.  That order is realised here as the lexicographic
key SVKey; build metadata is ignored by the order. -/

/-- A prerelease identifier: numeric identifiers order below string
identifiers, hence the lexicographic sum. -/
abbrev PreId := Nat ⊕ₗ String

/-- The comparison key: major, minor, patch, then the prerelease list
with the release (no prerelease) on top. -/
abbrev SVKey := Nat ×ₗ Nat ×ₗ Nat ×ₗ WithTop (List PreId)

structure SemVer where
  major : Nat
  minor : Nat
  patch : Nat
  pre : List PreId
  build : List String
deriving DecidableEq

def SemVer.key (v : SemVer) : SVKey :=
  toLex (v.major, toLex (v.minor, toLex (v.patch,
    (match v.pre with
     | [] => (⊤ : WithTop (List PreId))
     | l => ((l : List PreId) : WithTop (List PreId))))))

/-- 2^53 - 1, the largest integer the library accepts in a numeric
component. -/
def maxSafeInteger : Nat := 2 ^ 53 - 1

/-- A strict numeric component: digits only, no leading zero. -/
def parseNumStrict (s : List Char) : Option Nat :=
  if s = [] then none
  else if ¬ s.all Char.isDigit then none
  else if s.head? = some '0' ∧ s.length ≠ 1 then none
  else some (digitsToNat s)

/-- A main version component additionally obeys the 2^53 - 1 bound. -/
def parseMainNum (s : List Char) : Option Nat :=
  (parseNumStrict s).bind fun n => if n ≤ maxSafeInteger then some n else none

def isIdentChar (c : Char) : Bool := c.isDigit || c.isAlpha || c = '-'

/-- A prerelease identifier: digit runs without leading zeros become
numeric when below 2^53 - 1 and otherwise stay strings, as in the
library; other identifier-character runs are strings. -/
def parsePreId (s : List Char) : Option PreId :=
  if s = [] then none
  else if ¬ s.all isIdentChar then none
  else if s.all Char.isDigit then
    if s.head? = some '0' ∧ s.length ≠ 1 then none
    else if digitsToNat s < maxSafeInteger then some (toLex (Sum.inl (digitsToNat s)))
    else some (toLex (Sum.inr (String.mk s)))
  else some (toLex (Sum.inr (String.mk s)))

def parseBuildId (s : List Char) : Option String :=
  if s ≠ [] ∧ s.all isIdentChar then some (String.mk s) else none

/-- Split a character list at the first occurrence of a character. -/
def splitFirst (c : Char) : List Char → Option (List Char × List Char)
  | [] => none
  | x :: rest =>
    if x = c then some ([], rest)
    else (splitFirst c rest).map fun p => (x :: p.1, p.2)

/-- The strict semver parse (new SemVer(s) in the library); none models
the thrown TypeError for an invalid version. -/
def parseSemver (s : String) : Option SemVer :=
  let t := trimChars s.data
  let t := match t with | 'v' :: u => u | u => u
  let mpb : List Char × Option (List Char) :=
    match splitFirst '+' t with
    | none => (t, none)
    | some (a, b) => (a, some b)
  let mp : List Char × Option (List Char) :=
    match splitFirst '-' mpb.1 with
    | none => (mpb.1, none)
    | some (a, b) => (a, some b)
  match splitSeq ['.'] mp.1 with
  | [ma, mi, pa] =>
    match parseMainNum ma, parseMainNum mi, parseMainNum pa with
    | some vM, some vm, some vp =>
      let preOk : Option (List PreId) :=
        match mp.2 with
        | none => some []
        | some pp => (splitSeq ['.'] pp).mapM parsePreId
      let buildOk : Option (List String) :=
        match mpb.2 with
        | none => some []
        | some b => (splitSeq ['.'] b).mapM parseBuildId
      match preOk, buildOk with
      | some pre, some bld => some ⟨vM, vm, vp, pre, bld⟩
      | _, _ => none
    | _, _, _ => none
  | _ => none

/-- semver.prerelease: null (none) unless the version is valid and
carries a non-empty prerelease list. -/
def prereleaseArr (v : String) : Option (List PreId) :=
  match parseSemver v with
  | some sv => if sv.pre.isEmpty then none else some sv.pre
  | none => none

def semverKeyOf (s : String) : Option SVKey :=
  (parseSemver s).map SemVer.key

/-- semver.gt(a, b); none models the TypeError thrown on an invalid
version. -/
def semverGtQ (a b : String) : Option Bool :=
  match semverKeyOf a, semverKeyOf b with
  | some ka, some kb => some (decide (kb < ka))
  | _, _ => none

/-! ## BaseHandler version selection (src/lib/baseHandler.js 163-174) -/

/-- isPreReleaseVersion(version): semver.prerelease(version) !== null. -/
def isPreReleaseVersion (v : String) : Bool :=
  (prereleaseArr v).isSome

/-- The outcome of getLatestVersion on an array argument: a thrown
TypeError (from semver.gt on an invalid version), the JS null returned
for an empty array, or a version string. -/
inductive GLVResult where
  | thrown
  | nullResult
  | ver : String → GLVResult
deriving DecidableEq

/-- Array.prototype.reduce over the filtered list with the semver.gt
step function, seeded by the given accumulator; none models a thrown
TypeError. -/
def foldGt : List String → String → Option String
  | [], acc => some acc
  | v :: rest, acc =>
    match semverGtQ v acc with
    | none => none
    | some true => foldGt rest v
    | some false => foldGt rest acc

/-- getLatestVersion(versions) on an array argument (the non-array
pass-through branch is outside the model): empty array gives null, a
singleton is returned as is, and otherwise the prerelease versions are
filtered out and the remainder folded with semver.gt, seeded with the
first element of the original unfiltered array. -/
def getLatestVersion : List String → GLVResult
  | [] => .nullResult
  | [v] => .ver v
  | v0 :: v1 :: rest =>
    match foldGt ((v0 :: v1 :: rest).filter (fun v => !isPreReleaseVersion v)) v0 with
    | some r => .ver r
    | none => .thrown

/-! ## BaseHandler._aggregateVersions (src/lib/baseHandler.js 90-99) -/

/-- JS array write result[i] = v.  In the aggregation loop the index
never exceeds the length (the loop ascends from 0 over an array of
length at least one), so the padding branch is unreachable; it pads
with none, noting that JS holes would render as empty strings. -/
def jsArraySet (l : List (Option JsNum)) (i : Nat) (v : Option JsNum) :
    List (Option JsNum) :=
  if i < l.length then l.set i v
  else l ++ List.replicate (i - l.length) none ++ [v]

/-- JS result[i] += x: a read of an undefined index yields NaN. -/
def jsIdxAdd (l : List (Option JsNum)) (i : Nat) (x : Option JsNum) :
    List (Option JsNum) :=
  jsArraySet l i (match l[i]? with
    | some cur => jsAdd cur x
    | none => none)

/-- The inner loop: for (let i = 0; i < 3; i++) result[i] += +parts[i]. -/
def addParts (result : List (Option JsNum)) (parts : List String) :
    List (Option JsNum) :=
  (List.range 3).foldl
    (fun r i => jsIdxAdd r i (match parts[i]? with
      | some p => jsToNumber p
      | none => none))
    result

/-- The reduce of _aggregateVersions; the error value is the message of
the thrown Error. -/
def aggLoop (errorRoot : String) : List String → List (Option JsNum) →
    Except String (List (Option JsNum))
  | [], result => .ok result
  | v :: rest, result =>
    let parts := jsSplit v "."
    if parts.length ≠ 3 ∨ parts.any (fun p => (jsToNumber p).isNone) then
      .error (errorRoot ++ ": " ++ v)
    else aggLoop errorRoot rest (addParts result parts)

/-- _aggregateVersions(versions, errorRoot, base); the source defaults
base to "0.0.0". -/
def aggregateVersions (versions : List String) (errorRoot : String)
    (base : String) : Except String String :=
  (aggLoop errorRoot versions ((jsSplit base ".").map jsToNumber)).map
    fun result => joinStr "." (result.map renderJsNum)

/-! ## BaseHandler attachments (src/lib/baseHandler.js 38-42, 74-86)

computeToken hashes the file content with sha256 from the external
sha.js library; the hash is passed in as an arbitrary function of the
content, which is exactly the determinism the claims rely on.  The
filesystem read is likewise a function of the full path. -/

/-- computeToken(content): the sha256 hex digest of the content,
abstracted over the external hash implementation. -/
def computeToken (hash : String → String) (content : String) : String :=
  hash content

/-- One entry of the hidden _attachments list: { path, token, attachment }. -/
structure AttachmentFull where
  path : String
  token : String
  attachment : String
deriving DecidableEq

/-- One entry of the public attachments list: { path, token }. -/
structure AttachmentPub where
  path : String
  token : String
deriving DecidableEq

/-- The document as the attachment store sees it: the public
(persisted) attachments list, unset until first used, and the hidden
non-enumerable _attachments list. -/
structure AttachDoc where
  attachments : Option (List AttachmentPub)
  hiddenAttachments : List AttachmentFull
deriving DecidableEq

/-- path.join(location, file), modelled as slash concatenation. -/
def pathJoin (location file : String) : String :=
  location ++ "/" ++ file

/-- attachFiles(document, files, location): an empty file list is a
no-op that leaves document.attachments unset; otherwise each file is
read, tokenised, and recorded on both lists. -/
def attachFiles (hash : String → String) (readFile : String → String)
    (doc : AttachDoc) (files : List String) (location : String) : AttachDoc :=
  if files.isEmpty then doc
  else
    files.foldl
      (fun d file =>
        let content := readFile (pathJoin location file)
        let token := computeToken hash content
        { d with
          hiddenAttachments := d.hiddenAttachments ++ [⟨file, token, content⟩],
          attachments := some ((d.attachments.getD []) ++ [⟨file, token⟩]) })
      { doc with attachments := some (doc.attachments.getD []) }

/-! ## EntitySpec and tool links (src/lib/baseHandler.js 185-198)

Modelled from the spec: the EntitySpec class lives in
src/lib/entitySpec.js which is not among the given sources.  Per the
data model section of the spec an identity is the field record
{ecosystem(type), provider, namespace, name, revision, tool,
toolVersion}, the constructor takes the fields in that order (matching
the call sites in mavenExtract and baseHandler), and toUrn serialises
exactly those fields (the URN grammar itself is declared out of scope,
so the URN is modelled as the injective image of the fields). -/

structure EntitySpec where
  type : Option String
  provider : Option String
  -- the namespace field of the source; namespace is a Lean keyword
  namespc : Option String
  name : Option String
  revision : Option String
  tool : Option String
  toolVersion : Option String
deriving DecidableEq

/-- Modelled from the spec: the URN of an identity determines and is
determined by its seven fields. -/
structure Urn where
  type : Option String
  provider : Option String
  namespc : Option String
  name : Option String
  revision : Option String
  tool : Option String
  toolVersion : Option String
deriving DecidableEq

/-- Modelled from the spec: EntitySpec.toUrn(). -/
def EntitySpec.toUrn (s : EntitySpec) : Urn :=
  ⟨s.type, s.provider, s.namespc, s.name, s.revision, s.tool, s.toolVersion⟩

/-- The tool identity a handler contributes (for example
{ tool: "clearlydefined", toolVersion: schemaVersion } in
mavenExtract). -/
structure ToolSpec where
  tool : String
  toolVersion : String
deriving DecidableEq

/-- JS a || b on optional strings: the empty string is falsy. -/
def jsOrStr (a b : Option String) : Option String :=
  match a with
  | some s => if s = "" then b else a
  | none => b

/-- getUrnFor(request, spec): Object.assign(Object.create(spec), spec,
this.toolSpec) overlays the tool name and tool version of the handler
onto the identity, then serialises it. -/
def getUrnFor (ts : ToolSpec) (spec : EntitySpec) : Urn :=
  ({ spec with tool := some ts.tool, toolVersion := some ts.toolVersion } : EntitySpec).toUrn

/-- One emitted link: the edge kind as the carrier names it and the
target URN. -/
structure Link where
  kind : String
  target : Urn
deriving DecidableEq

/-- addBasicToolLinks(request, spec): a self link to the tool-qualified
URN, then a sibling link built from a fresh EntitySpec carrying the
type, provider, namespace, name and revision of the identity and its
tool name (filled from the handler tool identity when falsy); the
toolVersion slot is never populated (the constructor receives six
arguments and the delete removes nothing). -/
def addBasicToolLinks (ts : ToolSpec) (spec : EntitySpec) : List Link :=
  let newSpec : EntitySpec :=
    ⟨spec.type, spec.provider, spec.namespc, spec.name, spec.revision, spec.tool, none⟩
  let newSpec : EntitySpec := { newSpec with tool := jsOrStr newSpec.tool (some ts.tool) }
  [⟨"self", getUrnFor ts spec⟩, ⟨"siblings", newSpec.toUrn⟩]

/-- The sibling target as the specification words it: the current
identity with its version (revision) and toolVersion cleared and its
tool name kept, filled from the handler tool identity if absent.  This
definition follows the words of the spec, for comparison with the
source translation above. -/
def claimedSiblingUrn (ts : ToolSpec) (spec : EntitySpec) : Urn :=
  let cleared : EntitySpec :=
    { spec with
      revision := none
      toolVersion := none
      tool := jsOrStr spec.tool (some ts.tool) }
  cleared.toUrn

/-! ## DockerExtract embedded-component discovery (_queueDpkgs, _queueApks) -/

/-- The apk slice of the docker document: the two trimmed tool
listings produced by apk info and apk info -v. -/
structure ApkListings where
  names : String
  namesAndVersions : String
deriving DecidableEq

/-- The slice of the docker document the two queue methods read. -/
structure DockerDoc where
  apk : Option ApkListings
  dpkg : Option String
deriving DecidableEq

/-- A request object built by new Request(type, url).  The constructed
objects are bound to a local and dropped; the queue call next to each
construction is commented out in the source. -/
structure JsRequest where
  type : String
  url : String
deriving DecidableEq

inductive JsError where
  | typeError
deriving DecidableEq

/-- The observable effects of one discovery method: the
collection-member edges recorded on the document, the Request values
constructed, and the follow-on work items actually handed to the
crawler queue.  The queued list exists because the carrier interface
of the spec exposes an enqueue operation; this source never invokes
it, so every run leaves it empty. -/
structure DiscoveryOps where
  edges : List String
  created : List JsRequest
  queued : List JsRequest
deriving DecidableEq

/-- Modelled from the spec: addEmbeddedComponent (defined in
abstractClearlyDefinedProcessor, which is not among the given sources)
records a collection-member edge from the aggregate document to the
embedded child identity. -/
def addEmbeddedComponent (ops : DiscoveryOps) (url : String) : DiscoveryOps :=
  { ops with edges := ops.edges ++ [url] }

def emptyOps : DiscoveryOps := ⟨[], [], []⟩

/-- JS truthiness of document.dpkg: null, undefined and the empty
string are falsy. -/
def strTruthy : Option String → Bool
  | none => false
  | some s => s ≠ ""

/-- _queueDpkgs(document): split the listing into lines, destructure
each line on "___" (name is the part before the first separator,
version the part between the first and second separator, undefined when
the line has no separator), record the edge and build a Request. -/
def queueDpkgs (doc : DockerDoc) : DiscoveryOps :=
  if strTruthy doc.dpkg = false then emptyOps
  else
    (jsSplit (doc.dpkg.getD "") "\n").foldl
      (fun ops line =>
        let parts := jsSplit line "___"
        let name := parts.headD ""
        let version := parts[1]?
        let url := "cd:/dpkg/dpkg/-/" ++ name ++ "/" ++ version.getD "undefined"
        let ops := addEmbeddedComponent ops url
        { ops with created := ops.created ++ [⟨"dpkg", url⟩] })
      emptyOps

/-- The indexed loop of _queueApks, with the two listings consumed in
lockstep (the source indexes the second list with the loop index of
the first; consuming both lists positionally is the same thing).  When
the name list is longer, the read of the missing entry yields
undefined and the replace call on it throws a TypeError. -/
def apkLoop : List String → List String → DiscoveryOps → Except JsError DiscoveryOps
  | [], _, ops => .ok ops
  | _ :: _, [], _ => .error .typeError
  | name :: names, nav :: navs, ops =>
    let version := jsReplaceFirst nav (name ++ "-")
    let url := "cd:/apk/apk/-/" ++ name ++ "/" ++ version
    let ops := addEmbeddedComponent ops url
    apkLoop names navs { ops with created := ops.created ++ [⟨"apk", url⟩] }

/-- _queueApks(document): absence of the apk listing means zero
embedded components; otherwise both listings are split into lines and
paired positionally by index. -/
def queueApks (doc : DockerDoc) : Except JsError DiscoveryOps :=
  match doc.apk with
  | none => .ok emptyOps
  | some apk =>
    apkLoop (jsSplit apk.names "\n") (jsSplit apk.namesAndVersions "\n") emptyOps

/-! ## MavenExtract manifest resolution
(src/providers/process/mavenExtract.js 50-96)

The input boundary of the model is the xml2js parse result of a pom:
a tree of strings, arrays and objects (association lists with
first-key-wins lookup). -/

inductive Val where
  | str : String → Val
  | arr : List Val → Val
  | obj : List (String × Val) → Val

def getProp (fields : List (String × Val)) (k : String) : Option Val :=
  (fields.find? (fun p => p.1 == k)).map (·.2)

/-- JS property read v.k. -/
def jsGet (v : Val) (k : String) : Option Val :=
  match v with
  | .obj fields => getProp fields k
  | _ => none

/-- JS truthiness of a possibly-undefined value: objects and arrays
are truthy, a string is truthy unless empty. -/
def valTruthy : Option Val → Bool
  | none => false
  | some (.str s) => s ≠ ""
  | some (.arr _) => true
  | some (.obj _) => true

/-- JS assignment to a present property keeps its position. -/
def setProp (fields : List (String × Val)) (k : String) (v : Val) :
    List (String × Val) :=
  fields.map fun p => if p.1 == k then (k, v) else p

/-- The delete statements of _getManifest. -/
def removeKeys (fields : List (String × Val)) (ks : List String) :
    List (String × Val) :=
  fields.filter fun p => !(ks.contains p.1)

def strippedKeys : List String :=
  ["build", "dependencies", "dependencyManagement", "modules", "profiles"]

inductive MvnErr where
  | typeError
  | fetchFailed
  | outOfFuel
deriving DecidableEq

/-- The field-stripping prologue of _getManifest: delete
pom.project.build and the four other list-valued properties.  A pom
without a project property makes the first delete throw (a property
delete on undefined); a primitive project value leaves the pom
unchanged (arrays and strings simply lack the deleted keys, and a
sloppy-mode delete on a primitive is a no-op); a pom that is not an
object makes the property read itself throw. -/
def stripPom (pom : Val) : Except MvnErr Val :=
  match pom with
  | .obj fields =>
    match getProp fields "project" with
    | none => .error .typeError
    | some (.obj pf) =>
      .ok (.obj (setProp fields "project" (.obj (removeKeys pf strippedKeys))))
    | some _ => .ok pom
  | _ => .error .typeError

/-- JS v[0]: the first element of an array, the "0" property of an
object, the first character of a string. -/
def jsIndex0 (v : Val) : Option Val :=
  match v with
  | .arr l => l[0]?
  | .obj o => getProp o "0"
  | .str s =>
    match s.data with
    | [] => none
    | c :: _ => some (.str (String.mk [c]))

/-- parent.k[0].trim() for k one of groupId, artifactId, version; none
models the TypeError of indexing undefined or trimming a value that is
not a string. -/
def parentField (parent0 : Val) (k : String) : Option String :=
  match (jsGet parent0 k).bind jsIndex0 with
  | some (.str s) => some (String.mk (trimChars s.data))
  | _ => none

/-- The manifest record: { summary, poms }.  The spec calls the poms
list fragments. -/
structure Manifest where
  summary : Val
  poms : List Val

/-- The outcome of mavenCentral.fetchPom followed by the parse of the
fetched file: found carries the parsed parent pom, notFound is the
recognised 404 sentinel, and failure covers a thrown fetch error or a
parse error of the fetched file. -/
inductive FetchOutcome where
  | found : Val → FetchOutcome
  | notFound
  | failure

/-- The own enumerable entries Object.assign reads off one source:
undefined contributes nothing, an object its fields, arrays and
strings their indexed elements. -/
def toFields : Option Val → List (String × Val)
  | none => []
  | some (.obj f) => f
  | some (.arr l) => l.enum.map fun p => (toString p.1, p.2)
  | some (.str s) => s.data.enum.map fun p => (toString p.1, .str (String.mk [p.2]))

/-- Object.assign({}, a, b): the keys of a in their order with values
overridden by b where shared, then the keys of b not present in a. -/
def assignFields (a b : List (String × Val)) : List (String × Val) :=
  (a.map fun p => (p.1, (getProp b p.1).getD p.2)) ++
    b.filter (fun p => (getProp a p.1).isNone)

/-- _mergePomInto(pom, manifest): the summary is
{ project: Object.assign({}, manifest.summary.project, pom.project) }
and the fragment list is the pom prepended (unshift after slice) to
the ancestor fragments. -/
def mergePomInto (pom : Val) (manifest : Manifest) : Manifest :=
  { summary := .obj [("project",
      .obj (assignFields (toFields (jsGet manifest.summary "project"))
        (toFields (jsGet pom "project"))))],
    poms := pom :: manifest.poms }

/-- The left-to-right override merge of a fragment list, most specific
first: _mergePomInto folded above the empty ancestor contribution. -/
def manifestOfPoms (ps : List Val) : Manifest :=
  ps.foldr mergePomInto ⟨.obj [], []⟩

/-- _getManifest starting from the already-parsed pom, recursing along
the parent chain through the fetch collaborator (awaited level by
level, hence a function of the parent identity).  The source recursion
is unbounded by design; the model takes explicit fuel, and the
theorems ask for enough fuel for the chain at hand. -/
def getManifest (fetch : EntitySpec → FetchOutcome) :
    Nat → Val → Except MvnErr Manifest
  | 0, _ => .error .outOfFuel
  | fuel + 1, rawPom =>
    match stripPom rawPom with
    | .error e => .error e
    | .ok pom =>
    let parentProp := (jsGet pom "project").bind fun pr => jsGet pr "parent"
    if valTruthy parentProp then
      match parentProp with
      | none => .error .typeError
      | some parentVal =>
        match jsIndex0 parentVal with
        | none => .error .typeError
        | some parent0 =>
          match parentField parent0 "groupId", parentField parent0 "artifactId",
              parentField parent0 "version" with
          | some g, some a, some v =>
            let spec : EntitySpec :=
              ⟨some "maven", some "mavencentral", some g, some a, some v, none, none⟩
            match fetch spec with
            | .notFound => .ok (mergePomInto pom ⟨.obj [], []⟩)
            | .failure => .error .fetchFailed
            | .found parentRaw => (getManifest fetch fuel parentRaw).map (mergePomInto pom)
          | _, _, _ => .error .typeError
    else
      .ok { summary := pom, poms := [pom] }

/-- A well-formed parsed pom as xml2js produces it: one single root
key named project holding an object.  Stated as a predicate because
the merge claims compare the rebuilt summary against such a pom by
value. -/
def wfPom (p : Val) : Prop :=
  ∃ pf : List (String × Val), p = .obj [("project", .obj pf)]

/-! ## Concrete fixtures used to instantiate the resolution theorems -/

/-- A parent reference element as xml2js parses it. -/
def mvnParentElem : Val :=
  .obj [("groupId", .arr [.str "pg"]), ("artifactId", .arr [.str "pa"]),
        ("version", .arr [.str "1.0"])]

def mvnParentRef : Val := .arr [mvnParentElem]

def mvnChildFields : List (String × Val) :=
  [("artifactId", .arr [.str "a"]), ("parent", mvnParentRef)]

/-- A child pom that declares a parent. -/
def mvnChildPom : Val := .obj [("project", .obj mvnChildFields)]

/-- A parent pom without further ancestors. -/
def mvnParentPom : Val :=
  .obj [("project", .obj [("groupId", .arr [.str "pg"]), ("licenses", .str "L")])]

/-- A registry that serves the parent pom for the parent artifact. -/
def mvnFetch : EntitySpec → FetchOutcome := fun s =>
  if s.name == some "pa" then .found mvnParentPom else .failure

/-- The manifest the parent pom resolves to. -/
def mvnParentManifest : Manifest := ⟨mvnParentPom, [mvnParentPom]⟩

/-! ## Lemmas about the string primitives -/

theorem String_mk_data (s : String) : String.mk s.data = s := rfl

theorem single_prefix_iff (c : Char) (l : List Char) :
    [c] <+: l ↔ l.head? = some c := by
  constructor
  · rintro ⟨t, rfl⟩; rfl
  · intro h
    cases l with
    | nil => simp at h
    | cons x xs =>
      simp only [List.head?_cons, Option.some.injEq] at h
      exact ⟨xs, by rw [h]; rfl⟩

theorem splitSeqF_congr {sep : List Char} :
    ∀ f1 f2 : Nat, ∀ s : List Char, s.length ≤ f1 → s.length ≤ f2 →
      splitSeqF sep f1 s = splitSeqF sep f2 s := by
  intro f1
  induction f1 with
  | zero =>
    intro f2 s h1 _
    rcases List.eq_nil_of_length_eq_zero (Nat.le_zero.mp h1) with rfl
    cases f2 <;> rfl
  | succ g ih =>
    intro f2 s h1 h2
    cases s with
    | nil => cases f2 <;> rfl
    | cons c rest =>
      simp only [List.length_cons] at h1 h2
      cases f2 with
      | zero => omega
      | succ h =>
        show (if sep.isEmpty = false ∧ sep.isPrefixOf (c :: rest) = true then
            [] :: splitSeqF sep g (rest.drop (sep.length - 1))
          else match splitSeqF sep g rest with
            | [] => [[c]]
            | p :: ps => (c :: p) :: ps) =
          (if sep.isEmpty = false ∧ sep.isPrefixOf (c :: rest) = true then
            [] :: splitSeqF sep h (rest.drop (sep.length - 1))
          else match splitSeqF sep h rest with
            | [] => [[c]]
            | p :: ps => (c :: p) :: ps)
        by_cases hc : sep.isEmpty = false ∧ sep.isPrefixOf (c :: rest) = true
        · rw [if_pos hc, if_pos hc]
          exact congrArg (List.cons [])
            (ih h (rest.drop (sep.length - 1))
              (by simp only [List.length_drop]; omega)
              (by simp only [List.length_drop]; omega))
        · rw [if_neg hc, if_neg hc, ih h rest (by omega) (by omega)]

/-- The defining equation of splitSeq on a non-empty string. -/
theorem splitSeq_cons (sep : List Char) (c : Char) (rest : List Char) :
    splitSeq sep (c :: rest) =
      if sep.isEmpty = false ∧ sep.isPrefixOf (c :: rest) then
        [] :: splitSeq sep (rest.drop (sep.length - 1))
      else
        match splitSeq sep rest with
        | [] => [[c]]
        | p :: ps => (c :: p) :: ps := by
  show (if sep.isEmpty = false ∧ sep.isPrefixOf (c :: rest) = true then
      [] :: splitSeqF sep rest.length (rest.drop (sep.length - 1))
    else match splitSeqF sep rest.length rest with
      | [] => [[c]]
      | p :: ps => (c :: p) :: ps) = _
  by_cases hc : sep.isEmpty = false ∧ sep.isPrefixOf (c :: rest) = true
  · rw [if_pos hc, if_pos hc]
    exact congrArg (List.cons [])
      (splitSeqF_congr rest.length (rest.drop (sep.length - 1)).length _
        (by simp only [List.length_drop]; omega) (le_refl _))
  · rw [if_neg hc, if_neg hc]
    rfl

theorem splitSeq_nil (sep : List Char) : splitSeq sep [] = [[]] := rfl

theorem splitSeq_ne_nil (sep : List Char) : ∀ s, splitSeq sep s ≠ [] := by
  intro s
  rcases s with _ | ⟨c, rest⟩
  · simp [splitSeq, splitSeqF]
  · rw [splitSeq_cons]
    by_cases h : sep.isEmpty = false ∧ sep.isPrefixOf (c :: rest) = true
    · rw [if_pos h]; simp
    · rw [if_neg h]
      rcases hs : splitSeq sep rest with _ | ⟨p, ps⟩ <;> simp

/-- A string without an occurrence of the separator is one single part. -/
theorem splitSeq_no_occ {sep : List Char} (hsep : sep ≠ []) :
    ∀ s : List Char, (∀ i < s.length, ¬ sep <+: s.drop i) → splitSeq sep s = [s] := by
  intro s
  induction s with
  | nil => intro _; exact splitSeq_nil sep
  | cons c rest ih =>
    intro h
    rw [splitSeq_cons]
    have h0 : ¬ sep <+: (c :: rest) := by
      have := h 0 (by simp)
      simpa using this
    rw [if_neg (by
      rintro ⟨-, hpre⟩
      exact h0 (List.isPrefixOf_iff_prefix.mp hpre))]
    rw [ih (fun i hi => by
      have := h (i + 1) (by simpa using Nat.succ_lt_succ hi)
      simpa using this)]

/-- Splitting at an occurrence of the separator before which no other
occurrence starts. -/
theorem splitSeq_append {sep : List Char} (hsep : sep ≠ []) :
    ∀ a r : List Char, (∀ i < a.length, ¬ sep <+: ((a ++ sep ++ r).drop i)) →
      splitSeq sep (a ++ sep ++ r) = a :: splitSeq sep r := by
  intro a
  induction a with
  | nil =>
    intro r _
    match sep, hsep with
    | d :: sep', _ =>
      show splitSeq (d :: sep') (d :: (sep' ++ r)) = [] :: splitSeq (d :: sep') r
      rw [splitSeq_cons]
      rw [if_pos ⟨rfl, List.isPrefixOf_iff_prefix.mpr (List.prefix_append (d :: sep') r)⟩]
      simp [List.drop_left]
  | cons x a' ih =>
    intro r h
    have h0 : ¬ sep <+: ((x :: a') ++ sep ++ r) := by
      have := h 0 (by simp)
      simpa using this
    show splitSeq sep (x :: (a' ++ sep ++ r)) = (x :: a') :: splitSeq sep r
    rw [splitSeq_cons]
    rw [if_neg (by
      rintro ⟨-, hpre⟩
      exact h0 (List.isPrefixOf_iff_prefix.mp hpre))]
    rw [ih r (fun i hi => by
      have := h (i + 1) (by simpa using Nat.succ_lt_succ hi)
      simpa using this)]

/-- No singleton separator occurs inside a segment it delimits. -/
theorem not_single_prefix_drop {c : Char} {p : List Char} (hc : c ∉ p)
    (r : List Char) : ∀ i < p.length, ¬ [c] <+: ((p ++ r).drop i) := by
  intro i hi hpre
  rw [List.drop_append_of_le_length (Nat.le_of_lt hi)] at hpre
  rw [List.drop_eq_getElem_cons hi] at hpre
  rw [single_prefix_iff] at hpre
  simp only [List.cons_append, List.head?_cons, Option.some.injEq] at hpre
  exact hc (hpre ▸ List.getElem_mem hi)

/-- Before the first occurrence of the separator there is no
occurrence. -/
theorem firstOcc_not_prefix {sep : List Char} :
    ∀ {s : List Char} {n : Nat}, firstOcc sep s = some n →
      ∀ i < n, ¬ sep <+: s.drop i := by
  intro s
  induction s with
  | nil =>
    intro n h i hi
    unfold firstOcc at h
    split at h
    · simp at h
      omega
    · simp at h
  | cons c rest ih =>
    intro n h i hi
    unfold firstOcc at h
    split at h
    · simp at h
      omega
    · rcases Option.map_eq_some'.mp h with ⟨m, hm, rfl⟩
      cases i with
      | zero =>
        intro hpre
        rename_i hnp
        exact hnp (List.isPrefixOf_iff_prefix.mpr hpre)
      | succ j =>
        rw [List.drop_succ_cons]
        exact ih hm j (by omega)

/-- Splitting a separator-free join on a singleton separator recovers
the parts. -/
theorem splitSeq_join {c : Char} :
    ∀ parts : List (List Char), parts ≠ [] → (∀ p ∈ parts, c ∉ p) →
      splitSeq [c] (joinSep [c] parts) = parts := by
  intro parts
  induction parts with
  | nil => intro h; exact absurd rfl h
  | cons p ps ih =>
    intro _ hfree
    cases ps with
    | nil =>
      show splitSeq [c] p = [p]
      refine splitSeq_no_occ (by simp) p (fun i hi hpre => ?_)
      exact (not_single_prefix_drop (hfree p (by simp)) [] i hi)
        (by simpa using hpre)
    | cons q ps' =>
      show splitSeq [c] (p ++ [c] ++ joinSep [c] (q :: ps')) = p :: (q :: ps')
      rw [splitSeq_append (by simp) p (joinSep [c] (q :: ps'))
        (fun i hi => by
          have := not_single_prefix_drop (hfree p (by simp))
            ([c] ++ joinSep [c] (q :: ps')) i hi
          simpa using this)]
      rw [ih (by simp) (fun x hx => hfree x (by simp [hx]))]

/-- jsSplit on newline inverts joinStr on newline for newline-free
parts. -/
theorem jsSplit_join_newline (parts : List String) (hne : parts ≠ [])
    (hfree : ∀ p ∈ parts, '\n' ∉ p.data) :
    jsSplit (joinStr "\n" parts) "\n" = parts := by
  show (splitSeq "\n".data (joinSep "\n".data (parts.map String.data))).map String.mk = parts
  have hd : "\n".data = ['\n'] := rfl
  rw [hd]
  rw [splitSeq_join (parts.map String.data)
    (by simpa using hne)
    (by intro p hp; rcases List.mem_map.mp hp with ⟨q, hq, rfl⟩; exact hfree q hq)]
  simp only [List.map_map]
  have hid : String.mk ∘ String.data = id := funext fun s => rfl
  rw [hid, List.map_id]

theorem replFirst_append (pat rest : List Char) :
    replFirst pat (pat ++ rest) = rest := by
  cases pat with
  | nil =>
    cases rest with
    | nil => rfl
    | cons c t => simp [replFirst, List.isPrefixOf]
  | cons d pat' =>
    show replFirst (d :: pat') (d :: (pat' ++ rest)) = rest
    rw [replFirst]
    have hpre : (d :: pat').isPrefixOf (d :: (pat' ++ rest)) = true :=
      List.isPrefixOf_iff_prefix.mpr (by simpa using List.prefix_append (d :: pat') rest)
    rw [if_pos hpre]
    simpa using List.drop_left (d :: pat') rest

/-- The version recovery of _queueApks: stripping the first occurrence
of the pattern from a string that starts with it drops that prefix. -/
theorem jsReplaceFirst_prefix (pre v : String) :
    jsReplaceFirst (pre ++ v) pre = v := by
  show String.mk (replFirst pre.data (pre ++ v).data) = v
  rw [String.data_append, replFirst_append]

/-! ## Lemmas about the DockerExtract discovery loops -/

/-- The apk pairing loop faults when the name list outruns the
name-and-version list. -/
theorem apkLoop_short :
    ∀ (names navs : List String) (ops : DiscoveryOps),
      navs.length < names.length → apkLoop names navs ops = .error .typeError := by
  intro names
  induction names with
  | nil => intro navs ops h; simp at h
  | cons n ns ih =>
    intro navs ops h
    cases navs with
    | nil => rfl
    | cons x xs =>
      show apkLoop ns xs _ = _
      exact ih xs _ (by simpa using Nat.lt_of_succ_lt_succ h)

/-- The apk pairing loop on listings generated from (name, version)
pairs recovers exactly those pairs. -/
theorem apkLoop_pairs :
    ∀ (pairs : List (String × String)) (ops : DiscoveryOps),
      apkLoop (pairs.map (·.1)) (pairs.map fun p => p.1 ++ "-" ++ p.2) ops =
        .ok ⟨ops.edges ++ pairs.map (fun p => "cd:/apk/apk/-/" ++ p.1 ++ "/" ++ p.2),
             ops.created ++ pairs.map (fun p => ⟨"apk", "cd:/apk/apk/-/" ++ p.1 ++ "/" ++ p.2⟩),
             ops.queued⟩ := by
  intro pairs
  induction pairs with
  | nil => intro ops; cases ops; simp [apkLoop]
  | cons pr rest ih =>
    intro ops
    obtain ⟨n, v⟩ := pr
    simp only [List.map_cons, apkLoop, addEmbeddedComponent, jsReplaceFirst_prefix]
    rw [ih]
    simp [List.append_assoc]

/-- A newline-free line is a single line. -/
theorem jsSplit_single_line (line : String) (hnl : '\n' ∉ line.data) :
    jsSplit line "\n" = [line] := by
  show (splitSeq "\n".data line.data).map String.mk = [line]
  have hd : "\n".data = ['\n'] := rfl
  rw [hd]
  rw [splitSeq_no_occ (by simp) line.data (fun i hi hpre =>
    (not_single_prefix_drop hnl [] i hi) (by simpa using hpre))]
  simp [String_mk_data]

/-! ## Claims C2, C8, C10: embedded-component discovery -/

/-- Claim C2, counterexample.  On names "a\nb" and name+versions
"a-1.0\nb-2.0" the code recovers the pairs ("a","1.0") and ("b","2.0")
and records one collection-member edge per pair, but it hands no
follow-on work item to the queue (the queued list of the run is empty,
not the two-element list the claim demands): the queue call is
commented out and the constructed Request values are dropped. -/
theorem claim_C2_counterexample :
    queueApks ⟨some ⟨"a\nb", "a-1.0\nb-2.0"⟩, none⟩ =
      .ok ⟨["cd:/apk/apk/-/a/1.0", "cd:/apk/apk/-/b/2.0"],
           [⟨"apk", "cd:/apk/apk/-/a/1.0"⟩, ⟨"apk", "cd:/apk/apk/-/b/2.0"⟩],
           []⟩ ∧
    ([] : List JsRequest) ≠
      [⟨"apk", "cd:/apk/apk/-/a/1.0"⟩, ⟨"apk", "cd:/apk/apk/-/b/2.0"⟩] :=
  ⟨rfl, by decide⟩

/-- Claim C2, amended.  For every document carrying both newline
listings of equal length with entries of the shape name-version,
entries are paired positionally, each version is recovered by
stripping the prefix name-, and every recovered pair produces exactly
one collection-member edge and one constructed Request value for the
synthesized child identity; no follow-on work item is enqueued (the
queue call is commented out). -/
theorem claim_C2_amended :
    ∀ (pairs : List (String × String)) (dpkg : Option String),
      pairs ≠ [] →
      (∀ p ∈ pairs, '\n' ∉ (p.1 : String).data ∧ '\n' ∉ (p.2 : String).data) →
      queueApks ⟨some ⟨joinStr "\n" (pairs.map (·.1)),
                       joinStr "\n" (pairs.map fun p => p.1 ++ "-" ++ p.2)⟩, dpkg⟩ =
        .ok ⟨pairs.map (fun p => "cd:/apk/apk/-/" ++ p.1 ++ "/" ++ p.2),
             pairs.map (fun p => ⟨"apk", "cd:/apk/apk/-/" ++ p.1 ++ "/" ++ p.2⟩),
             []⟩ := by
  intro pairs dpkg hne hfree
  show apkLoop (jsSplit (joinStr "\n" (pairs.map (·.1))) "\n")
      (jsSplit (joinStr "\n" (pairs.map fun p => p.1 ++ "-" ++ p.2)) "\n") emptyOps = _
  rw [jsSplit_join_newline _ (by simpa using hne)
    (by
      intro p hp
      rcases List.mem_map.mp hp with ⟨q, hq, rfl⟩
      exact (hfree q hq).1)]
  rw [jsSplit_join_newline _ (by simpa using hne)
    (by
      intro p hp
      rcases List.mem_map.mp hp with ⟨q, hq, rfl⟩
      simp only [String.data_append]
      intro hmem
      rcases List.mem_append.mp hmem with h1 | h2
      · rcases List.mem_append.mp h1 with h3 | h4
        · exact (hfree q hq).1 h3
        · simp at h4
      · exact (hfree q hq).2 h2)]
  rw [apkLoop_pairs pairs emptyOps]
  rfl

/-- Claim C8, counterexample.  The line "a___1___2" is split on every
occurrence of the delimiter and the destructuring takes the first two
parts, so the recovered version is "1", not the entire remainder
"1___2" the claim demands. -/
theorem claim_C8_counterexample :
    queueDpkgs ⟨none, some "a___1___2"⟩ =
      ⟨["cd:/dpkg/dpkg/-/a/1"], [⟨"dpkg", "cd:/dpkg/dpkg/-/a/1"⟩], []⟩ ∧
    ("cd:/dpkg/dpkg/-/a/1" : String) ≠ "cd:/dpkg/dpkg/-/a/1___2" :=
  ⟨rfl, by decide⟩

/-- Claim C8, amended.  For a line whose first delimiter occurrence
ends the name and whose next occurrence ends the following segment,
the recovered name is the text before the first occurrence and the
recovered version is the segment between the first and the second
occurrence (the entire remainder only when the remainder contains no
further occurrence); the text after the second occurrence is dropped. -/
theorem claim_C8_amended :
    ∀ (apk : Option ApkListings) (name v1 v2 : String),
      '\n' ∉ (name ++ "___" ++ v1 ++ "___" ++ v2).data →
      (∀ i < name.data.length,
        ¬ "___".data <+: ((name ++ "___" ++ v1 ++ "___" ++ v2).data.drop i)) →
      (∀ i < v1.data.length,
        ¬ "___".data <+: ((v1.data ++ "___".data ++ v2.data).drop i)) →
      queueDpkgs ⟨apk, some (name ++ "___" ++ v1 ++ "___" ++ v2)⟩ =
        ⟨["cd:/dpkg/dpkg/-/" ++ name ++ "/" ++ v1],
         [⟨"dpkg", "cd:/dpkg/dpkg/-/" ++ name ++ "/" ++ v1⟩], []⟩ := by
  intro apk name v1 v2 hnl hocc1 hocc2
  have hdata : (name ++ "___" ++ v1 ++ "___" ++ v2).data =
      name.data ++ "___".data ++ (v1.data ++ "___".data ++ v2.data) := by
    simp [String.data_append, List.append_assoc]
  have hline : (name ++ "___" ++ v1 ++ "___" ++ v2) ≠ "" := by
    intro h
    have := congrArg String.data h
    rw [hdata] at this
    simp at this
  have hsplit : jsSplit (name ++ "___" ++ v1 ++ "___" ++ v2) "___" =
      name :: v1 :: (splitSeq "___".data v2.data).map String.mk := by
    show (splitSeq "___".data (name ++ "___" ++ v1 ++ "___" ++ v2).data).map String.mk = _
    rw [hdata]
    rw [splitSeq_append (by decide) name.data (v1.data ++ "___".data ++ v2.data)
      (fun i hi => by
        have := hocc1 i hi
        rw [hdata] at this
        exact this)]
    rw [splitSeq_append (by decide) v1.data v2.data hocc2]
    simp [String_mk_data]
  unfold queueDpkgs
  rw [if_neg (by simp [strTruthy, hline])]
  simp only [Option.getD_some]
  rw [jsSplit_single_line _ hnl]
  simp only [List.foldl_cons, List.foldl_nil, hsplit]
  simp [addEmbeddedComponent, emptyOps]

/-- Claim C10.  When the bare-name listing has more lines than the
name-and-version listing, the per-index version recovery reads a
missing entry and the run faults with a TypeError instead of returning
a result; complete absence of the apk listing yields zero embedded
components without error. -/
theorem claim_C10_apk_length_mismatch :
    (∀ (doc : DockerDoc) (apk : ApkListings), doc.apk = some apk →
      (jsSplit apk.namesAndVersions "\n").length < (jsSplit apk.names "\n").length →
      queueApks doc = .error .typeError) ∧
    (∀ doc : DockerDoc, doc.apk = none → queueApks doc = .ok emptyOps) := by
  constructor
  · intro doc apk hapk hlen
    unfold queueApks
    rw [hapk]
    exact apkLoop_short _ _ _ hlen
  · intro doc h
    unfold queueApks
    rw [h]

/-- Claim C10, witness: a concrete three-name, two-version document
faults, and a document with no apk listing yields the empty run. -/
theorem claim_C10_witness :
    (⟨some ⟨"a\nb\nc", "a-1.0\nb-2.0"⟩, none⟩ : DockerDoc).apk =
        some ⟨"a\nb\nc", "a-1.0\nb-2.0"⟩ ∧
    (jsSplit "a-1.0\nb-2.0" "\n").length < (jsSplit "a\nb\nc" "\n").length ∧
    queueApks ⟨some ⟨"a\nb\nc", "a-1.0\nb-2.0"⟩, none⟩ = .error .typeError ∧
    queueApks ⟨none, some "x"⟩ = .ok emptyOps :=
  ⟨rfl, by decide,
   claim_C10_apk_length_mismatch.1 ⟨some ⟨"a\nb\nc", "a-1.0\nb-2.0"⟩, none⟩ _ rfl (by decide),
   claim_C10_apk_length_mismatch.2 ⟨none, some "x"⟩ rfl⟩

/-- Claim C2, amended, witness at the listing of the claim. -/
theorem claim_C2_amended_witness :
    ([("a", "1.0"), ("b", "2.0")] : List (String × String)) ≠ [] ∧
    (∀ p ∈ ([("a", "1.0"), ("b", "2.0")] : List (String × String)),
      '\n' ∉ (p.1 : String).data ∧ '\n' ∉ (p.2 : String).data) ∧
    queueApks ⟨some ⟨joinStr "\n" ["a", "b"], joinStr "\n" ["a-1.0", "b-2.0"]⟩, none⟩ =
      .ok ⟨["cd:/apk/apk/-/a/1.0", "cd:/apk/apk/-/b/2.0"],
           [⟨"apk", "cd:/apk/apk/-/a/1.0"⟩, ⟨"apk", "cd:/apk/apk/-/b/2.0"⟩],
           []⟩ := by
  refine ⟨by decide, by decide, ?_⟩
  have h := claim_C2_amended [("a", "1.0"), ("b", "2.0")] none (by decide) (by decide)
  simpa using h

/-- Claim C8, amended, witness at the counterexample line. -/
theorem claim_C8_amended_witness :
    ('\n' ∉ (("a" : String) ++ "___" ++ "1" ++ "___" ++ "2").data) ∧
    queueDpkgs ⟨none, some (("a" : String) ++ "___" ++ "1" ++ "___" ++ "2")⟩ =
      ⟨["cd:/dpkg/dpkg/-/a/1"], [⟨"dpkg", "cd:/dpkg/dpkg/-/a/1"⟩], []⟩ := by
  refine ⟨by decide, ?_⟩
  exact claim_C8_amended none "a" "1" "2" (by decide) (by decide) (by decide)

/-! ## Claim C5: addBasicToolLinks -/

/-- Claim C5, counterexample.  The sibling edge target keeps the
revision of the current identity (the constructor receives
spec.revision), so for an identity at revision 1.0.0 it differs from
the URN the claim describes, which has the version cleared. -/
theorem claim_C5_counterexample :
    addBasicToolLinks ⟨"clearlydefined", "1.1.2"⟩
        ⟨some "maven", some "mavencentral", none, some "x", some "1.0.0", none, none⟩ =
      [⟨"self", ⟨some "maven", some "mavencentral", none, some "x", some "1.0.0",
          some "clearlydefined", some "1.1.2"⟩⟩,
       ⟨"siblings", ⟨some "maven", some "mavencentral", none, some "x", some "1.0.0",
          some "clearlydefined", none⟩⟩] ∧
    (⟨some "maven", some "mavencentral", none, some "x", some "1.0.0",
        some "clearlydefined", none⟩ : Urn) ≠
      claimedSiblingUrn ⟨"clearlydefined", "1.1.2"⟩
        ⟨some "maven", some "mavencentral", none, some "x", some "1.0.0", none, none⟩ :=
  ⟨rfl, by decide⟩

/-- Claim C5, amended.  addBasicToolLinks emits a self edge to the
tool-qualified URN of the current component (the identity overlaid
with the handler tool name and tool version), and a sibling edge to
the URN of the identity with its revision kept, its toolVersion left
clear, and its tool name kept, filled from the handler tool identity
when falsy. -/
theorem claim_C5_amended :
    ∀ (ts : ToolSpec) (spec : EntitySpec),
      addBasicToolLinks ts spec =
        [⟨"self", EntitySpec.toUrn
            { spec with tool := some ts.tool, toolVersion := some ts.toolVersion }⟩,
         ⟨"siblings", EntitySpec.toUrn
            ⟨spec.type, spec.provider, spec.namespc, spec.name, spec.revision,
             jsOrStr spec.tool (some ts.tool), none⟩⟩] ∧
      (spec.tool = none → jsOrStr spec.tool (some ts.tool) = some ts.tool) := by
  intro ts spec
  exact ⟨rfl, fun h => by rw [h]; rfl⟩

/-- Claim C5, amended, witness at a concrete identity without a tool
name. -/
theorem claim_C5_amended_witness :
    addBasicToolLinks ⟨"t", "1"⟩
        ⟨some "npm", some "npmjs", none, some "p", some "2.0.0", none, none⟩ =
      [⟨"self", ⟨some "npm", some "npmjs", none, some "p", some "2.0.0",
          some "t", some "1"⟩⟩,
       ⟨"siblings", ⟨some "npm", some "npmjs", none, some "p", some "2.0.0",
          some "t", none⟩⟩] ∧
    jsOrStr none (some "t") = some "t" := by
  have h := claim_C5_amended ⟨"t", "1"⟩
    ⟨some "npm", some "npmjs", none, some "p", some "2.0.0", none, none⟩
  exact ⟨h.1, h.2 rfl⟩

/-! ## Claim C7: attachment tokens -/

/-- Claim C7.  The attachment content token is a pure function of the
file content: attaching two paths carrying identical content to one
document records two attachment entries sharing one token, and
attaching identical content to two different documents under two
different locations records the same token on both. -/
theorem claim_C7_token_purity :
    (∀ (hash readFile : String → String) (doc : AttachDoc) (loc p1 p2 : String),
      readFile (pathJoin loc p1) = readFile (pathJoin loc p2) →
      (attachFiles hash readFile doc [p1, p2] loc).attachments =
        some (doc.attachments.getD [] ++
          [⟨p1, computeToken hash (readFile (pathJoin loc p1))⟩,
           ⟨p2, computeToken hash (readFile (pathJoin loc p1))⟩])) ∧
    (∀ (hash readFile : String → String) (d1 d2 : AttachDoc) (l1 l2 q1 q2 : String),
      readFile (pathJoin l1 q1) = readFile (pathJoin l2 q2) →
      (attachFiles hash readFile d1 [q1] l1).attachments =
          some (d1.attachments.getD [] ++
            [⟨q1, computeToken hash (readFile (pathJoin l1 q1))⟩]) ∧
        (attachFiles hash readFile d2 [q2] l2).attachments =
          some (d2.attachments.getD [] ++
            [⟨q2, computeToken hash (readFile (pathJoin l1 q1))⟩])) := by
  constructor
  · intro hash readFile doc loc p1 p2 h
    simp [attachFiles, computeToken, h]
  · intro hash readFile d1 d2 l1 l2 q1 q2 h
    constructor <;> simp [attachFiles, computeToken, h]

/-- Claim C7, witness: the same one-byte content under two paths and
on a second document yields one shared token. -/
theorem claim_C7_witness :
    ((fun _ => "c" : String → String) (pathJoin "L" "p1") =
      (fun _ => "c" : String → String) (pathJoin "L" "p2")) ∧
    (attachFiles (fun s => s) (fun _ => "c") ⟨none, []⟩ ["p1", "p2"] "L").attachments =
      some [⟨"p1", "c"⟩, ⟨"p2", "c"⟩] ∧
    (attachFiles (fun s => s) (fun _ => "c") ⟨some [⟨"q0", "t0"⟩], []⟩ ["q2"] "M").attachments =
      some [⟨"q0", "t0"⟩, ⟨"q2", "c"⟩] := by
  refine ⟨rfl, ?_, ?_⟩
  · have h := claim_C7_token_purity.1 (fun s => s) (fun _ => "c") ⟨none, []⟩ "L" "p1" "p2" rfl
    simpa using h
  · have h := (claim_C7_token_purity.2 (fun s => s) (fun _ => "c")
      ⟨none, []⟩ ⟨some [⟨"q0", "t0"⟩], []⟩ "L" "M" "p1" "q2" rfl).2
    simpa [computeToken] using h

/-! ## Claim C9: empty version components in _aggregateVersions -/

/-- Claim C9.  _aggregateVersions accepts empty dot-separated
components, coercing the empty string to the number 0 rather than
failing: with the default base, aggregating the single version "1..3"
returns "1.0.3". -/
theorem claim_C9_empty_component :
    jsToNumber "" = some (.int 0) ∧
    aggregateVersions ["1..3"] "err" "0.0.0" = .ok "1.0.3" :=
  ⟨rfl, rfl⟩

/-! ## Lemmas about manifest resolution -/

theorem assignFields_nil (b : List (String × Val)) : assignFields [] b = b := by
  simp [assignFields, getProp]

theorem manifestOfPoms_poms : ∀ ps : List Val, (manifestOfPoms ps).poms = ps := by
  intro ps
  induction ps with
  | nil => rfl
  | cons p ps ih =>
    show (mergePomInto p (manifestOfPoms ps)).poms = p :: ps
    simp [mergePomInto, ih]

/-- Merging a well-formed pom into the empty ancestor contribution
reproduces the pom itself as the summary. -/
theorem mergePomInto_empty_wf (pom : Val) (pf : List (String × Val))
    (hpom : pom = .obj [("project", .obj pf)]) :
    mergePomInto pom ⟨.obj [], []⟩ = ⟨pom, [pom]⟩ := by
  subst hpom
  simp [mergePomInto, jsGet, getProp, toFields, assignFields_nil]

/-- One parent-bearing step of _getManifest, reduced to the fetch
outcome. -/
theorem getManifest_parent_step (fetch : EntitySpec → FetchOutcome)
    (fuel : Nat) (raw pom parentVal parent0 : Val) (g a v : String)
    (hs : stripPom raw = .ok pom)
    (hpp : (jsGet pom "project").bind (fun pr => jsGet pr "parent") = some parentVal)
    (ht : valTruthy (some parentVal) = true)
    (h0 : jsIndex0 parentVal = some parent0)
    (hg : parentField parent0 "groupId" = some g)
    (ha : parentField parent0 "artifactId" = some a)
    (hv : parentField parent0 "version" = some v) :
    getManifest fetch (fuel + 1) raw =
      match fetch ⟨some "maven", some "mavencentral", some g, some a, some v,
          none, none⟩ with
      | .notFound => .ok (mergePomInto pom ⟨.obj [], []⟩)
      | .failure => .error .fetchFailed
      | .found parentRaw => (getManifest fetch fuel parentRaw).map (mergePomInto pom) := by
  simp only [getManifest, hs, hpp, ht, h0, hg, ha, hv, if_true]

/-- The structural invariant of every successful resolution: the head
fragment is the stripped own descriptor, and for well-formed fragments
the summary is the left-to-right override merge of the fragments. -/
theorem getManifest_ok_inv (fetch : EntitySpec → FetchOutcome) :
    ∀ (fuel : Nat) (raw : Val) (m : Manifest),
      getManifest fetch fuel raw = .ok m →
      (∃ sp, stripPom raw = .ok sp ∧ m.poms.head? = some sp) ∧
      ((∀ p ∈ m.poms, wfPom p) → m.summary = (manifestOfPoms m.poms).summary) := by
  intro fuel
  induction fuel with
  | zero => intro raw m h; simp [getManifest] at h
  | succ fuel ih =>
    intro raw m h
    simp only [getManifest] at h
    split at h
    · exact absurd h (by simp)
    · rename_i pom hs
      split at h
      · rename_i ht
        split at h
        · exact absurd h (by simp)
        · rename_i parentVal hpv
          split at h
          · exact absurd h (by simp)
          · rename_i parent0 hp0
            split at h
            · rename_i g a v hg ha hv
              split at h
              · injection h with h
                subst h
                exact ⟨⟨pom, hs, rfl⟩, fun _ => rfl⟩
              · exact absurd h (by simp)
              · rename_i praw hfetch
                cases hrec : getManifest fetch fuel praw with
                | error e => rw [hrec] at h; exact absurd h (by simp [Except.map])
                | ok pm =>
                  rw [hrec] at h
                  simp only [Except.map, Except.ok.injEq] at h
                  subst h
                  refine ⟨⟨pom, hs, rfl⟩, ?_⟩
                  intro hwf
                  have htail : ∀ p ∈ pm.poms, wfPom p := fun p hp => hwf p (by
                    show p ∈ pom :: pm.poms
                    exact List.mem_cons_of_mem _ hp)
                  have hpm := (ih praw pm hrec).2 htail
                  show (mergePomInto pom pm).summary =
                    (mergePomInto pom (manifestOfPoms pm.poms)).summary
                  simp only [mergePomInto, hpm]
            · exact absurd h (by simp)
      · rename_i ht
        injection h with h
        subst h
        refine ⟨⟨pom, hs, rfl⟩, ?_⟩
        intro hwf
        obtain ⟨pf, hpf⟩ := hwf pom (by simp)
        show pom = (manifestOfPoms [pom]).summary
        rw [show manifestOfPoms [pom] = mergePomInto pom ⟨.obj [], []⟩ from rfl,
          mergePomInto_empty_wf pom pf hpf]

/-! ## Claims C3 and C4: manifest resolution -/

/-- Claim C3.  For every successful resolution the first fragment is
the component's own (parsed and stripped) descriptor, the summary is
the deterministic left-to-right override merge of the fragments (for
well-formed single-root fragments), and a resolved parent contributes
its fragments behind the child's own fragment, giving the
most-specific-first ordering. -/
theorem claim_C3_manifest_invariants :
    (∀ (fetch : EntitySpec → FetchOutcome) (fuel : Nat) (raw : Val) (m : Manifest),
      getManifest fetch fuel raw = .ok m →
      (∃ sp, stripPom raw = .ok sp ∧ m.poms.head? = some sp) ∧
      ((∀ p ∈ m.poms, wfPom p) → m.summary = (manifestOfPoms m.poms).summary)) ∧
    (∀ (fetch : EntitySpec → FetchOutcome) (fuel : Nat)
      (raw pom parentVal parent0 : Val) (g a v : String) (praw : Val) (pm : Manifest),
      stripPom raw = .ok pom →
      (jsGet pom "project").bind (fun pr => jsGet pr "parent") = some parentVal →
      valTruthy (some parentVal) = true →
      jsIndex0 parentVal = some parent0 →
      parentField parent0 "groupId" = some g →
      parentField parent0 "artifactId" = some a →
      parentField parent0 "version" = some v →
      fetch ⟨some "maven", some "mavencentral", some g, some a, some v,
        none, none⟩ = .found praw →
      getManifest fetch fuel praw = .ok pm →
      getManifest fetch (fuel + 1) raw = .ok (mergePomInto pom pm) ∧
        (mergePomInto pom pm).poms = pom :: pm.poms) := by
  refine ⟨getManifest_ok_inv, ?_⟩
  intro fetch fuel raw pom parentVal parent0 g a v praw pm
    hs hpp ht h0 hg ha hv hfetch hrec
  constructor
  · rw [getManifest_parent_step fetch fuel raw pom parentVal parent0 g a v
      hs hpp ht h0 hg ha hv]
    simp only [hfetch, hrec, Except.map]
  · rfl

/-- Claim C4.  A parent reference whose fetch reports 404 does not
fail the resolution: the parent contributes the empty manifest, the
recursion stops, and the result is the child's own stripped descriptor
as summary with exactly one fragment. -/
theorem claim_C4_notfound_parent :
    ∀ (fetch : EntitySpec → FetchOutcome) (fuel : Nat)
      (raw pom : Val) (pf : List (String × Val)) (parentVal parent0 : Val)
      (g a v : String),
      stripPom raw = .ok pom →
      pom = .obj [("project", .obj pf)] →
      getProp pf "parent" = some parentVal →
      valTruthy (some parentVal) = true →
      jsIndex0 parentVal = some parent0 →
      parentField parent0 "groupId" = some g →
      parentField parent0 "artifactId" = some a →
      parentField parent0 "version" = some v →
      fetch ⟨some "maven", some "mavencentral", some g, some a, some v,
        none, none⟩ = .notFound →
      getManifest fetch (fuel + 1) raw = .ok (mergePomInto pom ⟨.obj [], []⟩) ∧
        mergePomInto pom ⟨.obj [], []⟩ = ⟨pom, [pom]⟩ := by
  intro fetch fuel raw pom pf parentVal parent0 g a v
    hs hpom hpar ht h0 hg ha hv hfetch
  have hpp : (jsGet pom "project").bind (fun pr => jsGet pr "parent") = some parentVal := by
    rw [hpom]
    show jsGet (Val.obj pf) "parent" = some parentVal
    exact hpar
  constructor
  · rw [getManifest_parent_step fetch fuel raw pom parentVal parent0 g a v
      hs hpp ht h0 hg ha hv]
    rw [hfetch]
  · exact mergePomInto_empty_wf pom pf hpom

/-- Claim C3, witness: a concrete child pom resolved against a
registry serving its parent; the invariant instance and the
child-prepended fragment list are exhibited. -/
theorem claim_C3_witness :
    getManifest (fun _ => FetchOutcome.notFound) 1 mvnChildPom =
        .ok ⟨mvnChildPom, [mvnChildPom]⟩ ∧
    ((∃ sp, stripPom mvnChildPom = .ok sp ∧
        (⟨mvnChildPom, [mvnChildPom]⟩ : Manifest).poms.head? = some sp) ∧
      ((∀ p ∈ (⟨mvnChildPom, [mvnChildPom]⟩ : Manifest).poms, wfPom p) →
        (⟨mvnChildPom, [mvnChildPom]⟩ : Manifest).summary =
          (manifestOfPoms (⟨mvnChildPom, [mvnChildPom]⟩ : Manifest).poms).summary)) ∧
    (getManifest mvnFetch 2 mvnChildPom =
        .ok (mergePomInto mvnChildPom mvnParentManifest) ∧
      (mergePomInto mvnChildPom mvnParentManifest).poms =
        mvnChildPom :: mvnParentManifest.poms) := by
  refine ⟨rfl, ?_, ?_⟩
  · exact claim_C3_manifest_invariants.1 (fun _ => FetchOutcome.notFound) 1
      mvnChildPom ⟨mvnChildPom, [mvnChildPom]⟩ rfl
  · exact claim_C3_manifest_invariants.2 mvnFetch 1 mvnChildPom mvnChildPom
      mvnParentRef mvnParentElem "pg" "pa" "1.0" mvnParentPom mvnParentManifest
      rfl rfl rfl rfl rfl rfl rfl rfl rfl

/-- Claim C4, witness: the concrete child pom against a registry that
reports 404 for every fetch resolves to its own single-fragment
manifest. -/
theorem claim_C4_witness :
    stripPom mvnChildPom = .ok mvnChildPom ∧
    mvnChildPom = .obj [("project", .obj mvnChildFields)] ∧
    getProp mvnChildFields "parent" = some mvnParentRef ∧
    valTruthy (some mvnParentRef) = true ∧
    jsIndex0 mvnParentRef = some mvnParentElem ∧
    parentField mvnParentElem "groupId" = some "pg" ∧
    parentField mvnParentElem "artifactId" = some "pa" ∧
    parentField mvnParentElem "version" = some "1.0" ∧
    getManifest (fun _ => FetchOutcome.notFound) 1 mvnChildPom =
      .ok ⟨mvnChildPom, [mvnChildPom]⟩ := by
  refine ⟨rfl, rfl, rfl, rfl, rfl, rfl, rfl, rfl, ?_⟩
  have h := claim_C4_notfound_parent (fun _ => FetchOutcome.notFound) 0
    mvnChildPom mvnChildPom mvnChildFields mvnParentRef mvnParentElem
    "pg" "pa" "1.0" rfl rfl rfl rfl rfl rfl rfl rfl rfl
  rw [h.1, h.2]

/-! ## Lemmas about getLatestVersion -/

/-- The fold over the filtered versions with the semver.gt step
computes an element that no processed element (nor the seed) exceeds
in the semver order. -/
theorem foldGt_spec :
    ∀ (l : List String) (acc : String) (ka : SVKey),
      semverKeyOf acc = some ka →
      (∀ v ∈ l, (semverKeyOf v).isSome) →
      ∃ r kr, foldGt l acc = some r ∧ semverKeyOf r = some kr ∧
        (r = acc ∨ r ∈ l) ∧ ka ≤ kr ∧
        (∀ v ∈ l, ∀ kv, semverKeyOf v = some kv → kv ≤ kr) := by
  intro l
  induction l with
  | nil =>
    intro acc ka hacc _
    exact ⟨acc, ka, rfl, hacc, Or.inl rfl, le_refl ka, by simp⟩
  | cons v rest ih =>
    intro acc ka hacc hall
    obtain ⟨kv, hv⟩ := Option.isSome_iff_exists.mp (hall v (by simp))
    have hgt : semverGtQ v acc = some (decide (ka < kv)) := by
      simp [semverGtQ, hv, hacc]
    simp only [foldGt, hgt]
    by_cases hlt : ka < kv
    · rw [decide_eq_true hlt]
      obtain ⟨r, kr, hfold, hkr, hmem, hle, hrest⟩ :=
        ih v kv hv (fun w hw => hall w (List.mem_cons_of_mem _ hw))
      refine ⟨r, kr, hfold, hkr, ?_, le_trans (le_of_lt hlt) hle, ?_⟩
      · rcases hmem with rfl | hm
        · exact Or.inr (by simp)
        · exact Or.inr (List.mem_cons_of_mem _ hm)
      · intro w hw kw hkw
        rcases List.mem_cons.mp hw with rfl | hw'
        · rw [hv] at hkw
          injection hkw with hkw
          exact hkw ▸ hle
        · exact hrest w hw' kw hkw
    · rw [decide_eq_false hlt]
      obtain ⟨r, kr, hfold, hkr, hmem, hle, hrest⟩ :=
        ih acc ka hacc (fun w hw => hall w (List.mem_cons_of_mem _ hw))
      refine ⟨r, kr, hfold, hkr, ?_, hle, ?_⟩
      · rcases hmem with rfl | hm
        · exact Or.inl rfl
        · exact Or.inr (List.mem_cons_of_mem _ hm)
      · intro w hw kw hkw
        rcases List.mem_cons.mp hw with rfl | hw'
        · rw [hv] at hkw
          injection hkw with hkw
          subst hkw
          exact le_trans (not_lt.mp hlt) hle
        · exact hrest w hw' kw hkw

/-! ## Claim C1: getLatestVersion -/

/-- Claim C1, counterexample.  The fold is seeded with the original
unfiltered first element, so a prerelease first element that is above
every non-prerelease wins: getLatestVersion(["2.0.0-beta","1.0.0"])
returns "2.0.0-beta", not "1.0.0" as the claim asserts. -/
theorem claim_C1_counterexample :
    getLatestVersion ["2.0.0-beta", "1.0.0"] = .ver "2.0.0-beta" ∧
    GLVResult.ver "2.0.0-beta" ≠ .ver "1.0.0" :=
  ⟨rfl, by decide⟩

/-- Claim C1, amended.  For every array of at least two valid version
strings, getLatestVersion returns an element of the unfiltered first
element together with the non-prerelease elements that none of them
exceeds in the semver order — the maximum non-prerelease wins only
when the unfiltered first element does not beat it; if no
non-prerelease exists the result is the first element. -/
theorem claim_C1_amended :
    ∀ (v0 v1 : String) (rest : List String),
      (∀ v ∈ v0 :: v1 :: rest, (parseSemver v).isSome) →
      ∃ r, getLatestVersion (v0 :: v1 :: rest) = .ver r ∧
        r ∈ v0 :: (v0 :: v1 :: rest).filter (fun v => !isPreReleaseVersion v) ∧
        (∀ x ∈ v0 :: (v0 :: v1 :: rest).filter (fun v => !isPreReleaseVersion v),
          semverGtQ x r = some false) ∧
        ((v0 :: v1 :: rest).filter (fun v => !isPreReleaseVersion v) = [] → r = v0) := by
  intro v0 v1 rest hall
  have hkey : ∀ v ∈ v0 :: v1 :: rest, (semverKeyOf v).isSome := by
    intro v hv
    rcases Option.isSome_iff_exists.mp (hall v hv) with ⟨sv, hsv⟩
    simp [semverKeyOf, hsv]
  obtain ⟨ka, hacc⟩ := Option.isSome_iff_exists.mp (hkey v0 (by simp))
  have hfilter : ∀ v ∈ (v0 :: v1 :: rest).filter (fun v => !isPreReleaseVersion v),
      (semverKeyOf v).isSome :=
    fun v hv => hkey v (List.mem_of_mem_filter hv)
  obtain ⟨r, kr, hfold, hkr, hmem, hle, hmax⟩ :=
    foldGt_spec ((v0 :: v1 :: rest).filter (fun v => !isPreReleaseVersion v))
      v0 ka hacc hfilter
  refine ⟨r, ?_, ?_, ?_, ?_⟩
  · simp only [getLatestVersion, hfold]
  · rcases hmem with rfl | hm
    · exact List.mem_cons_self _ _
    · exact List.mem_cons_of_mem _ hm
  · intro x hx
    rcases List.mem_cons.mp hx with rfl | hx'
    · show semverGtQ x r = some false
      rw [show semverGtQ x r = some (decide (kr < ka)) from by simp [semverGtQ, hacc, hkr]]
      rw [decide_eq_false (not_lt.mpr hle)]
    · obtain ⟨kx, hkx⟩ := Option.isSome_iff_exists.mp (hfilter x hx')
      rw [show semverGtQ x r = some (decide (kr < kx)) from by simp [semverGtQ, hkx, hkr]]
      rw [decide_eq_false (not_lt.mpr (hmax x hx' kx hkx))]
  · intro hempty
    rw [hempty] at hfold
    injection hfold with hfold
    exact hfold.symm

/-- Claim C1, amended, witness: a two-element all-release array where
the maximum is selected. -/
theorem claim_C1_amended_witness :
    (∀ v ∈ ["1.0.0", "2.0.0"], (parseSemver v).isSome) ∧
    getLatestVersion ["1.0.0", "2.0.0"] = .ver "2.0.0" := by
  refine ⟨by decide, ?_⟩
  obtain ⟨r, hr, hmem, hmax, -⟩ := claim_C1_amended "1.0.0" "2.0.0" [] (by decide)
  have hfil : (["1.0.0", "2.0.0"] : List String).filter
      (fun v => !isPreReleaseVersion v) = ["1.0.0", "2.0.0"] := rfl
  rw [hfil] at hmem hmax
  rw [hr]
  rcases List.mem_cons.mp hmem with rfl | hmem'
  · exact absurd (hmax "2.0.0" (by simp)) (by decide)
  · rcases List.mem_cons.mp hmem' with rfl | hmem''
    · exact absurd (hmax "2.0.0" (by simp)) (by decide)
    · rcases List.mem_cons.mp hmem'' with rfl | hmem'''
      · rfl
      · simp at hmem'''

end Crawler
